import Mathlib

/-!
Verification of the grid index (`Map` in `src/util/map.py`) of the
AIge-of-EmpAIres repository: a spatial index tracking which grid cells are
occupied by which placed objects.  The `Map` class itself is translated from
the source; the `Coordinate` and `GameObject` value types it consumes, and the
body of `path_finding`, are not present in the source tree and are modelled
from the specification where indicated.
-/

/-- Modelled from the spec: the Coordinate value type (util/coordinate.py is
not in the source tree).  A pair of integers with equality, componentwise
comparison (consistent with the bounds semantics of section 4.1: a block is
in bounds iff every cell lies in the square), elementwise scalar addition,
and an 8-connectivity adjacency test (Chebyshev distance exactly 1). -/
structure Coordinate where
  x : Int
  y : Int
deriving DecidableEq

/-- Chebyshev distance between two coordinates: max of the absolute
coordinate differences. -/
def chebDist (a b : Coordinate) : Nat :=
  max ((a.x - b.x).natAbs) ((a.y - b.y).natAbs)

/-- Modelled from the spec: Coordinate comparison, componentwise. -/
def Coordinate.le (a b : Coordinate) : Bool :=
  decide (a.x ≤ b.x ∧ a.y ≤ b.y)

/-- Modelled from the spec: Coordinate plus an integer scalar, elementwise. -/
def Coordinate.addInt (a : Coordinate) (k : Int) : Coordinate :=
  ⟨a.x + k, a.y + k⟩

/-- Modelled from the spec: adjacency test, true iff the Chebyshev distance
equals 1 (one of the 8 surrounding cells, diagonals included). -/
def Coordinate.is_adjacent (a b : Coordinate) : Bool :=
  decide (chebDist a b = 1)

/-- Modelled from the spec: a placeable game object (model/game_object.py is
not in the source tree).  It exposes a footprint side length (spec: a
positive integer; occupying a size-by-size square), an identity, and the
stored anchor coordinate returned by get_coordinate (optional: objects that
were never positioned have none). -/
structure GameObject where
  id : Nat
  size : Nat
  coord : Option Coordinate
deriving DecidableEq

/-- Error kinds raised by the grid operations (the source raises ValueError
with distinct messages; the spec names them PlacementError, OutOfBoundsError,
EmptyCellError, NotAdjacentError).  The attrError constructor models the
Python AttributeError that a move on an object with no stored coordinate
would raise. -/
inductive MapError where
  | placement
  | outOfBounds
  | emptyCell
  | notAdjacent
  | attrError
deriving DecidableEq

/-- The grid index: a fixed size and a sparse cell table.  The source backs
the table with a defaultdict mapping absent keys to None; modelled as a total
function into Option. -/
structure Map where
  size : Int
  cells : Coordinate → Option GameObject

/-- A freshly constructed map of a given size: every cell empty
(source: Map.__init__). -/
def Map.mkEmpty (s : Int) : Map :=
  ⟨s, fun _ => none⟩

/-- Cell lookup (source: Map.get): returns the object at the coordinate or
none, never failing, bounds not enforced. -/
def Map.get (m : Map) (c : Coordinate) : Option GameObject :=
  m.cells c

/-- The anchor bounds test of check_placement line 50 of the source:
Coordinate(0,0) <= coordinate and coordinate + size - 1 <= Coordinate(mapsize-1, mapsize-1). -/
def inBoundsAnchor (m : Map) (o : GameObject) (c : Coordinate) : Bool :=
  Coordinate.le ⟨0, 0⟩ c &&
    Coordinate.le (c.addInt ((o.size : Int) - 1)) ⟨m.size - 1, m.size - 1⟩

/-- Placement check (source: Map.check_placement): iterates over the
footprint block; inside the loop returns false if the coordinate is
undefined, the anchored block leaves the grid, or the inspected cell is
occupied.  An object of footprint 0 makes both loops empty, so the function
returns true without inspecting the coordinate, exactly as in the source. -/
def Map.check_placement (m : Map) (o : GameObject) (co : Option Coordinate) : Bool :=
  (List.range o.size).all fun x =>
    (List.range o.size).all fun y =>
      match co with
      | none => false
      | some c =>
          inBoundsAnchor m o c &&
            decide (m.get ⟨c.x + (x : Int), c.y + (y : Int)⟩ = none)

/-- Pointwise update of a cell table. -/
def writeCell (f : Coordinate → Option GameObject) (c : Coordinate)
    (v : Option GameObject) : Coordinate → Option GameObject :=
  fun c' => if c' = c then v else f c'

/-- The coordinates of the k-by-k block anchored at c, in the loop order of
the source (x outer, y inner). -/
def blockCoords (c : Coordinate) (k : Nat) : List Coordinate :=
  (List.range k).flatMap fun (x : Nat) =>
    (List.range k).map fun (y : Nat) => ⟨c.x + (x : Int), c.y + (y : Int)⟩

/-- Membership in the k-by-k block anchored at a. -/
def inBlockN (a : Coordinate) (k : Nat) (c : Coordinate) : Prop :=
  a.x ≤ c.x ∧ c.x < a.x + (k : Int) ∧ a.y ≤ c.y ∧ c.y < a.y + (k : Int)

instance (a : Coordinate) (k : Nat) (c : Coordinate) : Decidable (inBlockN a k c) := by
  unfold inBlockN; infer_instance

/-- Writes the object into every cell of its footprint block (the loop body
of Map.add in the source). -/
def setBlock (m : Map) (o : GameObject) (c : Coordinate) : Map :=
  { m with cells := (blockCoords c o.size).foldl (fun f c' => writeCell f c' (some o)) m.cells }

/-- Clears every cell of a k-by-k block (the loop body of Map.remove in the
source). -/
def clearBlock (m : Map) (c : Coordinate) (k : Nat) : Map :=
  { m with cells := (blockCoords c k).foldl (fun f c' => writeCell f c' none) m.cells }

/-- Placement (source: Map.add): raises PlacementError when check_placement
is false, otherwise claims the whole footprint block. -/
def Map.add (m : Map) (o : GameObject) (co : Option Coordinate) : Except MapError Map :=
  if m.check_placement o co then
    match co with
    | some c => .ok (setBlock m o c)
    | none => .ok m
  else .error .placement

/-- Removal (source: Map.remove): the bounds test is the literal test of
line 93 of the source, Coordinate(0,0) <= coordinate <= Coordinate(size, size);
then the object found at the argument coordinate is read and the block of its
footprint anchored at the argument coordinate is cleared. -/
def Map.remove (m : Map) (c : Coordinate) : Except MapError (GameObject × Map) :=
  if Coordinate.le ⟨0, 0⟩ c && Coordinate.le c ⟨m.size, m.size⟩ then
    match m.get c with
    | none => .error .emptyCell
    | some o => .ok (o, clearBlock m c o.size)
  else .error .outOfBounds

/-- Movement (source: Map.move): adjacency test on the stored coordinate of
the object, then check_placement at the destination, then remove at the
stored coordinate followed by add at the destination.  Errors carry the grid
state at the moment the Python exception would propagate, so that the
no-mutation-on-error property is expressible. -/
def Map.move (m : Map) (o : GameObject) (n : Coordinate) : Except (MapError × Map) Map :=
  match o.coord with
  | none => .error (.attrError, m)
  | some a =>
    if Coordinate.is_adjacent a n then
      if m.check_placement o (some n) then
        match m.remove a with
        | .error e => .error (e, m)
        | .ok (_, m1) =>
          match m1.add o (some n) with
          | .error e => .error (e, m1)
          | .ok m2 => .ok m2
      else .error (.placement, m)
    else .error (.notAdjacent, m)

/-- Result of add when it succeeds, the unchanged map otherwise. -/
def Map.addD (m : Map) (o : GameObject) (co : Option Coordinate) : Map :=
  match m.add o co with
  | .ok m' => m'
  | .error _ => m

/-- Resulting map of remove when it succeeds, the unchanged map otherwise. -/
def Map.removeD (m : Map) (c : Coordinate) : Map :=
  match m.remove c with
  | .ok (_, m') => m'
  | .error _ => m

/-- Whether an Except result is a success. -/
def exceptOk {ε α : Type} (r : Except ε α) : Bool :=
  match r with
  | .ok _ => true
  | .error _ => false

/-- The grid state observed after a move call that raised NotAdjacentError
or PlacementError; defaults to the pre-call grid for any other outcome. -/
def moveErrState (m : Map) (o : GameObject) (n : Coordinate) : Map :=
  match m.move o n with
  | .error (MapError.notAdjacent, m2) => m2
  | .error (MapError.placement, m2) => m2
  | _ => m

/-- The integers from a to b inclusive, in order (Python range(a, b+1)). -/
def intRange (a b : Int) : List Int :=
  (List.range (b - a + 1).toNat).map fun (i : Nat) => a + (i : Int)

/-- The coordinates of the closed rectangle between two corners, in the loop
order of the source (x outer, y inner). -/
def rectCoords (f t : Coordinate) : List Coordinate :=
  (intRange f.x t.x).flatMap fun x =>
    (intRange f.y t.y).map fun y => ⟨x, y⟩

/-- Region extraction (source: Map.get_from_to): a new map of size
max(dx, dy), populated by force-adding every occupied cell of the rectangle
at its translated coordinate. -/
def Map.get_from_to (m : Map) (f t : Coordinate) : Map :=
  { size := max (t.x - f.x) (t.y - f.y)
    cells := (rectCoords f t).foldl
      (fun acc c =>
        match m.get c with
        | none => acc
        | some o => writeCell acc ⟨c.x - f.x, c.y - f.y⟩ (some o))
      (fun _ => none) }

/-- Whether a single cell lies inside the grid square [0, s-1] x [0, s-1]. -/
def inBoundsCell (s : Int) (c : Coordinate) : Bool :=
  decide (0 ≤ c.x ∧ c.x ≤ s - 1 ∧ 0 ≤ c.y ∧ c.y ≤ s - 1)

/-- Membership in the optional block: false when the anchor is undefined. -/
def inBlockOptB (co : Option Coordinate) (k : Nat) (c' : Coordinate) : Bool :=
  match co with
  | none => false
  | some a => decide (inBlockN a k c')

/-! Heap model for capture.  The Python cell table is a mutable dictionary
held by reference; Map.capture duplicates the table into a fresh dictionary
(source line 352, self.__matrix.copy()), so mutations through either
reference leave the other untouched.  The heap maps allocation indices to
cell tables and a map value is a size together with a table reference. -/

/-- A map value as the Python runtime sees it: the immutable size and a
reference into the heap of cell tables. -/
structure MapRef where
  size : Int
  ref : Nat

/-- The heap of allocated cell tables: the next fresh index and the contents
of every index. -/
structure Heap where
  next : Nat
  store : Nat → Coordinate → Option GameObject

/-- The pure Map value currently designated by a reference. -/
def Heap.asMap (h : Heap) (r : MapRef) : Map :=
  ⟨r.size, h.store r.ref⟩

/-- Reading a cell through a reference (Map.get on the referenced table). -/
def Heap.getH (h : Heap) (r : MapRef) (c : Coordinate) : Option GameObject :=
  h.store r.ref c

/-- Overwriting the table at one heap index. -/
def Heap.setStore (h : Heap) (i : Nat) (f : Coordinate → Option GameObject) : Heap :=
  ⟨h.next, fun j => if j = i then f else h.store j⟩

/-- Snapshot (source: Map.capture): allocates a fresh table holding a copy of
the contents of the captured table and returns the updated heap together with
the new map value of the same size. -/
def Heap.capture (h : Heap) (r : MapRef) : Heap × MapRef :=
  (⟨h.next + 1, fun j => if j = h.next then h.store r.ref else h.store j⟩,
   ⟨r.size, h.next⟩)

/-- A mutating grid operation, for stating frame properties of capture. -/
inductive MOp where
  | addO (o : GameObject) (co : Option Coordinate)
  | removeO (c : Coordinate)

/-- Runs one operation against the table designated by the reference,
writing the updated table back in place; a failing operation leaves the heap
unchanged (the source raises before mutating). -/
def Heap.applyOp (h : Heap) (r : MapRef) : MOp → Heap
  | .addO o co =>
    match (h.asMap r).add o co with
    | .ok m' => h.setStore r.ref m'.cells
    | .error _ => h
  | .removeO c =>
    match (h.asMap r).remove c with
    | .ok (_, m') => h.setStore r.ref m'.cells
    | .error _ => h

/-- Runs a sequence of operations against one reference. -/
def Heap.applyOps (h : Heap) (r : MapRef) : List MOp → Heap
  | [] => h
  | op :: ops => (h.applyOp r op).applyOps r ops

/-! Pathfinding.  The source declares Map.path_finding with a docstring only
(lines 286 to 296): the body is absent, so the behavior is modelled from the
spec, section 4.3. -/

/-- Modelled from the spec: a cell is blocked for a search starting at S iff
it is occupied by an object different from the object at S (obstacles = any
cell occupied by a different object). -/
def blockedB (m : Map) (s c : Coordinate) : Bool :=
  match m.get c with
  | none => false
  | some o => decide (¬ m.get s = some o)

/-- Every in-bounds coordinate of the grid, row by row. -/
def allCoordsList (s : Int) : List Coordinate :=
  rectCoords ⟨0, 0⟩ ⟨s - 1, s - 1⟩

/-- Modelled from the spec: the breadth-first reachable set after i steps of
the 8-connected search from S, as a list.  Level i+1 appends every in-bounds,
unblocked, not yet reached cell adjacent to a reached cell. -/
def reach (m : Map) (s : Coordinate) : Nat → List Coordinate
  | 0 => [s]
  | i + 1 =>
    let r := reach m s i
    r ++ (allCoordsList m.size).filter fun c =>
      decide (¬ c ∈ r) && !(blockedB m s c) && r.any fun n => n.is_adjacent c

/-- Least number of steps at which E becomes reachable, scanned upward with
explicit fuel. -/
def leastD (m : Map) (s e : Coordinate) : Nat → Nat → Option Nat
  | 0, _ => none
  | fuel + 1, i => if e ∈ reach m s i then some i else leastD m s e fuel (i + 1)

/-- Modelled from the spec: extraction of a shortest path of i steps ending
at c, walking backwards through the breadth-first levels; at each level the
first reached neighbor is chosen (deterministic tie-breaking). -/
def back (m : Map) (s : Coordinate) : Nat → Coordinate → List Coordinate
  | 0, c => [c]
  | i + 1, c =>
    match (reach m s i).find? (fun n => n.is_adjacent c) with
    | some n => back m s i n ++ [c]
    | none => [c]

/-- Modelled from the spec: Map.path_finding, whose body is absent from the
source (docstring-only stub).  Per section 4.3 it is the shortest path over
the 8-connected grid from start to end, obstacles being cells occupied by a
different object, returning the coordinate sequence from start to end
inclusive, or a not-found result (none) if no path exists or either endpoint
is out of bounds. -/
def Map.path_finding (m : Map) (s e : Coordinate) : Option (List Coordinate) :=
  if inBoundsCell m.size s = true ∧ inBoundsCell m.size e = true then
    match leastD m s e ((m.size * m.size).toNat + 1) 0 with
    | some d => some (back m s d e)
    | none => none
  else none

/-- One unit step from a toward s along one axis (used to build explicit
shortest paths in the analysis of the search). -/
def stepToward (a s : Int) : Int :=
  if a < s then a + 1 else if s < a then a - 1 else a

/-! Reachable grid states and the full-footprint invariant. -/

/-- The block of an object fully referenced at an anchor: every cell of the
size-by-size square anchored at a holds that object. -/
def fullBlock (g : Map) (o : GameObject) (a : Coordinate) : Prop :=
  ∀ x : Nat, x < o.size → ∀ y : Nat, y < o.size →
    g.get ⟨a.x + (x : Int), a.y + (y : Int)⟩ = some o

/-- No partial footprints: every coordinate referencing an object lies inside
some fully referenced footprint block of that object. -/
instance (g : Map) (o : GameObject) (a : Coordinate) : Decidable (fullBlock g o a) := by
  unfold fullBlock; infer_instance

/-- No partial footprints: every coordinate referencing an object lies inside
some fully referenced footprint block of that object. -/
def NoPartial (g : Map) : Prop :=
  ∀ c o, g.get c = some o →
    ∃ dx : Nat, dx < o.size ∧ ∃ dy : Nat, dy < o.size ∧
      fullBlock g o ⟨c.x - (dx : Int), c.y - (dy : Int)⟩

/-- A remove argument is an anchor call when the cells referencing the object
found at the argument are exactly the footprint block anchored there. -/
def anchorCall (g : Map) (c : Coordinate) : Prop :=
  ∀ o, g.get c = some o → ∀ c', (g.get c' = some o ↔ inBlockN c o.size c')

/-- One successful mutation of the grid, with no respect paid to anchors:
this is the step relation of the claim as frozen. -/
inductive PlainStep : Map → Map → Prop where
  | add (m : Map) (o : GameObject) (co : Option Coordinate) (m' : Map) :
      m.add o co = .ok m' → PlainStep m m'
  | remove (m : Map) (c : Coordinate) (o : GameObject) (m' : Map) :
      m.remove c = .ok (o, m') → PlainStep m m'
  | move (m : Map) (o : GameObject) (n : Coordinate) (m' : Map) :
      m.move o n = .ok m' → PlainStep m m'

/-- One successful mutation of the grid in which every remove, including the
removal phase of move, is an anchor call. -/
inductive GoodStep : Map → Map → Prop where
  | add (m : Map) (o : GameObject) (co : Option Coordinate) (m' : Map) :
      m.add o co = .ok m' → GoodStep m m'
  | remove (m : Map) (c : Coordinate) (o : GameObject) (m' : Map) :
      m.remove c = .ok (o, m') → anchorCall m c → GoodStep m m'
  | move (m : Map) (o : GameObject) (n : Coordinate) (m' : Map) :
      m.move o n = .ok m' → (∀ a, o.coord = some a → anchorCall m a) → GoodStep m m'

/-! Concrete scenario values used by witnesses and counterexamples. -/

/-- A 1-by-1 object stored at the origin. -/
def obj1 : GameObject := ⟨1, 1, some ⟨0, 0⟩⟩

/-- A 2-by-2 object stored at the origin. -/
def obj2 : GameObject := ⟨2, 2, some ⟨0, 0⟩⟩

/-- A 1-by-1 obstacle object with no stored position. -/
def objD : GameObject := ⟨9, 1, none⟩

/-- A 3-by-3 grid in which the corner cell (2,2) is walled off by obstacles
at (1,1), (1,2) and (2,1). -/
def mEnc : Map :=
  ⟨3, fun c => if c = ⟨1, 1⟩ ∨ c = ⟨1, 2⟩ ∨ c = ⟨2, 1⟩ then some objD else none⟩

/-- A one-allocation heap whose table 0 is empty. -/
def heap0 : Heap := ⟨1, fun _ => fun _ => none⟩

/-- A reference to table 0 viewed as a 3-by-3 grid. -/
def ref0 : MapRef := ⟨3, 0⟩

/-! Basic characterization lemmas. -/

/-- Unfolding of the componentwise coordinate comparison. -/
theorem coordinate_le_iff (a b : Coordinate) :
    Coordinate.le a b = true ↔ a.x ≤ b.x ∧ a.y ≤ b.y := by
  simp [Coordinate.le]

/-- Unfolding of the adjacency test into componentwise facts. -/
theorem is_adjacent_iff (a b : Coordinate) :
    Coordinate.is_adjacent a b = true ↔
      (a.x - b.x).natAbs ≤ 1 ∧ (a.y - b.y).natAbs ≤ 1 ∧ a ≠ b := by
  simp only [Coordinate.is_adjacent, chebDist, decide_eq_true_eq]
  constructor
  · intro h
    have hx : (a.x - b.x).natAbs ≤ 1 := le_trans (le_max_left _ _) h.le
    have hy : (a.y - b.y).natAbs ≤ 1 := le_trans (le_max_right _ _) h.le
    refine ⟨hx, hy, ?_⟩
    rintro rfl
    simp at h
  · rintro ⟨hx, hy, hne⟩
    have hor : a.x ≠ b.x ∨ a.y ≠ b.y := by
      by_contra hc
      push_neg at hc
      exact hne (by cases a; cases b; simp_all)
    have h1 : max ((a.x - b.x).natAbs) ((a.y - b.y).natAbs) ≤ 1 := max_le hx hy
    have h2 : 1 ≤ max ((a.x - b.x).natAbs) ((a.y - b.y).natAbs) := by
      rcases hor with h | h
      · exact le_trans (by omega) (le_max_left _ _)
      · exact le_trans (by omega) (le_max_right _ _)
    omega

/-- Chebyshev distance bounded iff both components are bounded. -/
theorem chebDist_le_iff (a b : Coordinate) (k : Nat) :
    chebDist a b ≤ k ↔ (a.x - b.x).natAbs ≤ k ∧ (a.y - b.y).natAbs ≤ k := by
  simp [chebDist, max_le_iff]

/-- Chebyshev distance zero iff the coordinates coincide. -/
theorem chebDist_eq_zero_iff (a b : Coordinate) : chebDist a b = 0 ↔ a = b := by
  rw [← Nat.le_zero, chebDist_le_iff]
  constructor
  · rintro ⟨h1, h2⟩
    cases a; cases b; simp_all; omega
  · rintro rfl; simp

/-- Writing a constant value along a list of cells: the final table holds the
value on the listed cells and is untouched elsewhere. -/
theorem foldl_writeCell_const (l : List Coordinate)
    (g : Coordinate → Option GameObject) (v : Option GameObject) (c : Coordinate) :
    (l.foldl (fun f c' => writeCell f c' v) g) c = if c ∈ l then v else g c := by
  induction l generalizing g with
  | nil => simp
  | cons a l ih =>
    simp only [List.foldl_cons, ih, List.mem_cons, writeCell]
    by_cases h1 : c ∈ l
    · simp [h1]
    · by_cases h2 : c = a <;> simp [h1, h2]

/-- Membership in the block coordinate list is block membership. -/
theorem mem_blockCoords (c : Coordinate) (k : Nat) (c' : Coordinate) :
    c' ∈ blockCoords c k ↔ inBlockN c k c' := by
  unfold blockCoords inBlockN
  rw [List.mem_flatMap]
  constructor
  · rintro ⟨x, hx, hmem⟩
    rw [List.mem_map] at hmem
    obtain ⟨y, hy, rfl⟩ := hmem
    rw [List.mem_range] at hx hy
    dsimp only
    omega
  · rintro ⟨h1, h2, h3, h4⟩
    refine ⟨(c'.x - c.x).toNat, ?_, ?_⟩
    · rw [List.mem_range]; omega
    · rw [List.mem_map]
      refine ⟨(c'.y - c.y).toNat, ?_, ?_⟩
      · rw [List.mem_range]; omega
      · cases c'
        dsimp only at h1 h2 h3 h4 ⊢
        rw [Coordinate.mk.injEq]
        constructor <;> omega

/-- Cell contents after setBlock. -/
theorem setBlock_get (m : Map) (o : GameObject) (c c' : Coordinate) :
    (setBlock m o c).get c' = if inBlockN c o.size c' then some o else m.get c' := by
  simp only [setBlock, Map.get, foldl_writeCell_const, mem_blockCoords]

/-- setBlock preserves the size. -/
theorem setBlock_size (m : Map) (o : GameObject) (c : Coordinate) :
    (setBlock m o c).size = m.size := rfl

/-- Cell contents after clearBlock. -/
theorem clearBlock_get (m : Map) (c : Coordinate) (k : Nat) (c' : Coordinate) :
    (clearBlock m c k).get c' = if inBlockN c k c' then none else m.get c' := by
  simp only [clearBlock, Map.get, foldl_writeCell_const, mem_blockCoords]

/-- clearBlock preserves the size. -/
theorem clearBlock_size (m : Map) (c : Coordinate) (k : Nat) :
    (clearBlock m c k).size = m.size := rfl

/-- Full characterization of the placement check: it is true iff the
footprint is empty, or the coordinate is defined, the anchored block is in
bounds, and every cell of the block is empty. -/
theorem check_placement_iff (m : Map) (o : GameObject) (co : Option Coordinate) :
    m.check_placement o co = true ↔
      (o.size = 0 ∨ ∃ c, co = some c ∧ inBoundsAnchor m o c = true ∧
        ∀ x : Nat, x < o.size → ∀ y : Nat, y < o.size →
          m.get ⟨c.x + (x : Int), c.y + (y : Int)⟩ = none) := by
  unfold Map.check_placement
  rcases co with _ | c
  · simp only [List.all_eq_true, List.mem_range]
    constructor
    · intro h
      rcases Nat.eq_zero_or_pos o.size with h0 | h0
      · exact Or.inl h0
      · exact absurd (h 0 h0 0 h0) (by simp)
    · rintro (h0 | ⟨c, hc, _⟩)
      · intro x hx; omega
      · exact absurd hc (by simp)
  · simp only [List.all_eq_true, List.mem_range, Bool.and_eq_true, decide_eq_true_eq]
    constructor
    · intro h
      rcases Nat.eq_zero_or_pos o.size with h0 | h0
      · exact Or.inl h0
      · exact Or.inr ⟨c, rfl, (h 0 h0 0 h0).1, fun x hx y hy => (h x hx y hy).2⟩
    · rintro (h0 | ⟨c', hc', hb, hcell⟩)
      · intro x hx; omega
      · cases hc'
        exact fun x hx y hy => ⟨hb, hcell x hx y hy⟩

/-- For a positive footprint, the anchor bounds test says exactly that every
cell of the block lies in the grid square. -/
theorem inBoundsAnchor_iff (m : Map) (o : GameObject) (c : Coordinate)
    (hk : 1 ≤ o.size) :
    inBoundsAnchor m o c = true ↔
      ∀ x : Nat, x < o.size → ∀ y : Nat, y < o.size →
        0 ≤ c.x + (x : Int) ∧ c.x + (x : Int) ≤ m.size - 1 ∧
        0 ≤ c.y + (y : Int) ∧ c.y + (y : Int) ≤ m.size - 1 := by
  simp only [inBoundsAnchor, Coordinate.addInt, Bool.and_eq_true, coordinate_le_iff]
  constructor
  · rintro ⟨⟨h1, h2⟩, h3, h4⟩ x hx y hy
    constructor
    · omega
    constructor
    · omega
    constructor
    · omega
    · omega
  · intro h
    have h1 := h 0 hk 0 hk
    have h2 := h (o.size - 1) (by omega) (o.size - 1) (by omega)
    push_cast at h1 h2
    constructor
    constructor
    · omega
    · omega
    constructor
    · omega
    · omega

/-- Membership in the inclusive integer range. -/
theorem mem_intRange (a b x : Int) : x ∈ intRange a b ↔ a ≤ x ∧ x ≤ b := by
  unfold intRange
  rw [List.mem_map]
  constructor
  · rintro ⟨i, hi, rfl⟩
    rw [List.mem_range] at hi
    omega
  · rintro ⟨h1, h2⟩
    refine ⟨(x - a).toNat, ?_, by omega⟩
    rw [List.mem_range]
    omega

/-- Membership in the rectangle coordinate list. -/
theorem mem_rectCoords (f t c : Coordinate) :
    c ∈ rectCoords f t ↔ f.x ≤ c.x ∧ c.x ≤ t.x ∧ f.y ≤ c.y ∧ c.y ≤ t.y := by
  unfold rectCoords
  rw [List.mem_flatMap]
  constructor
  · rintro ⟨x, hx, hmem⟩
    rw [List.mem_map] at hmem
    obtain ⟨y, hy, rfl⟩ := hmem
    rw [mem_intRange] at hx hy
    dsimp only
    exact ⟨hx.1, hx.2, hy.1, hy.2⟩
  · rintro ⟨h1, h2, h3, h4⟩
    refine ⟨c.x, (mem_intRange _ _ _).2 ⟨h1, h2⟩, ?_⟩
    rw [List.mem_map]
    refine ⟨c.y, (mem_intRange _ _ _).2 ⟨h3, h4⟩, ?_⟩
    cases c
    rfl

/-- Membership in the list of all grid coordinates. -/
theorem mem_allCoordsList (s : Int) (c : Coordinate) :
    c ∈ allCoordsList s ↔ inBoundsCell s c = true := by
  rw [allCoordsList, mem_rectCoords, inBoundsCell]
  simp only [decide_eq_true_eq]

/-- A placement check transfers to any same-size grid that is pointwise
emptier. -/
theorem check_placement_mono (m m' : Map) (o : GameObject) (co : Option Coordinate)
    (hsz : m'.size = m.size)
    (hcell : ∀ c', m'.get c' = none ∨ m'.get c' = m.get c')
    (h : m.check_placement o co = true) : m'.check_placement o co = true := by
  rw [check_placement_iff] at h ⊢
  rcases h with h0 | ⟨c, hc, hb, hcells⟩
  · exact Or.inl h0
  · refine Or.inr ⟨c, hc, ?_, ?_⟩
    · unfold inBoundsAnchor at hb ⊢
      rw [hsz]
      exact hb
    · intro x hx y hy
      rcases hcell ⟨c.x + (x : Int), c.y + (y : Int)⟩ with he | he
      · exact he
      · rw [he]
        exact hcells x hx y hy

/-! Claim C1. -/

/-- C1: for every grid, every object with positive footprint k, and every
coordinate argument, check_placement is true iff the coordinate is defined
and every cell of the k-by-k block anchored there lies inside
[0, size-1] x [0, size-1] and is unoccupied. -/
theorem check_placement_correct (m : Map) (o : GameObject) (co : Option Coordinate)
    (hk : 1 ≤ o.size) :
    m.check_placement o co = true ↔
      ∃ c, co = some c ∧ ∀ x : Nat, x < o.size → ∀ y : Nat, y < o.size →
        (0 ≤ c.x + (x : Int) ∧ c.x + (x : Int) ≤ m.size - 1 ∧
         0 ≤ c.y + (y : Int) ∧ c.y + (y : Int) ≤ m.size - 1) ∧
        m.get ⟨c.x + (x : Int), c.y + (y : Int)⟩ = none := by
  rw [check_placement_iff]
  constructor
  · rintro (h0 | ⟨c, hc, hb, hcell⟩)
    · omega
    · exact ⟨c, hc, fun x hx y hy =>
        ⟨(inBoundsAnchor_iff m o c hk).1 hb x hx y hy, hcell x hx y hy⟩⟩
  · rintro ⟨c, hc, h⟩
    exact Or.inr ⟨c, hc, (inBoundsAnchor_iff m o c hk).2 (fun x hx y hy => (h x hx y hy).1),
      fun x hx y hy => (h x hx y hy).2⟩

/-- Witness for C1 at a concrete grid, object and coordinate. -/
theorem check_placement_correct_witness :
    1 ≤ obj1.size ∧
      ((Map.mkEmpty 2).check_placement obj1 (some ⟨0, 0⟩) = true ↔
        ∃ c, (some (⟨0, 0⟩ : Coordinate)) = some c ∧
          ∀ x : Nat, x < obj1.size → ∀ y : Nat, y < obj1.size →
            (0 ≤ c.x + (x : Int) ∧ c.x + (x : Int) ≤ (Map.mkEmpty 2).size - 1 ∧
             0 ≤ c.y + (y : Int) ∧ c.y + (y : Int) ≤ (Map.mkEmpty 2).size - 1) ∧
            (Map.mkEmpty 2).get ⟨c.x + (x : Int), c.y + (y : Int)⟩ = none) :=
  ⟨by decide, check_placement_correct (Map.mkEmpty 2) obj1 (some ⟨0, 0⟩) (by decide)⟩

/-! Claim C2. -/

/-- C2: add raises PlacementError exactly when check_placement is false;
when it is true, add succeeds and the resulting grid holds the object at
every cell of the footprint block anchored at the argument coordinate and is
unchanged at every other cell. -/
theorem add_spec (m : Map) (o : GameObject) (co : Option Coordinate) :
    (m.add o co = Except.error MapError.placement ↔ m.check_placement o co = false)
    ∧ (m.check_placement o co = true → m.add o co = Except.ok (m.addD o co))
    ∧ (m.check_placement o co = true →
        ∀ c', (m.addD o co).get c' =
          if inBlockOptB co o.size c' then some o else m.get c') := by
  cases hc : m.check_placement o co
  · refine ⟨by simp [Map.add, hc], ?_, ?_⟩
    · simp [hc]
    · simp [hc]
  · refine ⟨?_, ?_, ?_⟩
    · rcases co with _ | c <;> simp [Map.add, hc]
    · intro _; rcases co with _ | c <;> simp [Map.add, Map.addD, hc]
    · intro _ c'
      rcases co with _ | c
      · simp [Map.addD, Map.add, hc, inBlockOptB]
      · simp only [Map.addD, Map.add, hc, if_true, inBlockOptB]
        rw [setBlock_get]
        by_cases hb : inBlockN c o.size c' <;> simp [hb]

/-- Witness for C2 at a concrete successful placement. -/
theorem add_spec_witness :
    (Map.mkEmpty 3).check_placement obj1 (some ⟨1, 1⟩) = true ∧
    (Map.mkEmpty 3).add obj1 (some ⟨1, 1⟩) =
      Except.ok ((Map.mkEmpty 3).addD obj1 (some ⟨1, 1⟩)) ∧
    ((Map.mkEmpty 3).addD obj1 (some ⟨1, 1⟩)).get ⟨1, 1⟩ =
      (if inBlockOptB (some ⟨1, 1⟩) obj1.size ⟨1, 1⟩ then some obj1
       else (Map.mkEmpty 3).get ⟨1, 1⟩) :=
  ⟨by decide,
   (add_spec (Map.mkEmpty 3) obj1 (some ⟨1, 1⟩)).2.1 (by decide),
   (add_spec (Map.mkEmpty 3) obj1 (some ⟨1, 1⟩)).2.2 (by decide) ⟨1, 1⟩⟩

/-! Claim C5.  The source tests the remove bounds with
Coordinate(0,0) <= coordinate <= Coordinate(size, size), one past the last
valid cell [0, size-1]: at coordinate (size, size) of an empty grid the call
reports EmptyCellError although the claim (and spec section 7) demand
OutOfBoundsError for every coordinate outside [0, size-1] squared. -/

/-- C5 failing input: on an empty grid of size 3 the coordinate (3,3) lies
outside the grid square, yet remove reports EmptyCellError rather than
OutOfBoundsError. -/
theorem remove_oob_offbyone :
    inBoundsCell 3 ⟨3, 3⟩ = false ∧
      (Map.mkEmpty 3).remove ⟨3, 3⟩ = Except.error MapError.emptyCell :=
  ⟨by decide, rfl⟩

/-! Claim C3. -/

/-- C3: from any grid in which the placement check passes, adding the object
and then removing it at the same anchor both succeed and restore every cell
of the grid. -/
theorem add_remove_roundtrip (m : Map) (o : GameObject) (c : Coordinate)
    (hk : 1 ≤ o.size) (hcp : m.check_placement o (some c) = true) :
    m.add o (some c) = Except.ok (m.addD o (some c)) ∧
    (m.addD o (some c)).remove c = Except.ok (o, (m.addD o (some c)).removeD c) ∧
    ∀ c', ((m.addD o (some c)).removeD c).get c' = m.get c' := by
  obtain (h0 | ⟨c0, hc0, hb, hcell⟩) := (check_placement_iff m o (some c)).1 hcp
  · omega
  · cases hc0
    have hadd : m.add o (some c) = Except.ok (setBlock m o c) := by
      simp [Map.add, hcp]
    have haddD : m.addD o (some c) = setBlock m o c := by
      simp [Map.addD, hadd]
    have hbnd : (Coordinate.le ⟨0, 0⟩ c && Coordinate.le c ⟨(setBlock m o c).size, (setBlock m o c).size⟩) = true := by
      rw [Bool.and_eq_true, coordinate_le_iff, coordinate_le_iff, setBlock_size]
      unfold inBoundsAnchor at hb
      rw [Bool.and_eq_true, coordinate_le_iff, coordinate_le_iff] at hb
      unfold Coordinate.addInt at hb
      dsimp only at hb ⊢
      omega
    have hget : (setBlock m o c).get c = some o := by
      rw [setBlock_get, if_pos]
      unfold inBlockN
      omega
    have hrem : (setBlock m o c).remove c = Except.ok (o, clearBlock (setBlock m o c) c o.size) := by
      unfold Map.remove
      rw [if_pos hbnd, hget]
    have hremD : (m.addD o (some c)).removeD c = clearBlock (setBlock m o c) c o.size := by
      rw [haddD, Map.removeD, hrem]
    refine ⟨by rw [haddD]; exact hadd, by rw [hremD, haddD]; exact hrem, ?_⟩
    intro c'
    rw [hremD, clearBlock_get, setBlock_get]
    by_cases hb' : inBlockN c o.size c'
    · rw [if_pos hb']
      have hxy : inBlockN c o.size c' := hb'
      unfold inBlockN at hxy
      have hc' : (⟨c.x + (((c'.x - c.x).toNat : Nat) : Int),
                  c.y + (((c'.y - c.y).toNat : Nat) : Int)⟩ : Coordinate) = c' := by
        cases c'
        rw [Coordinate.mk.injEq]
        dsimp only at hxy ⊢
        constructor <;> omega
      have hnone := hcell (c'.x - c.x).toNat (by omega) (c'.y - c.y).toNat (by omega)
      rw [hc'] at hnone
      exact hnone.symm
    · rw [if_neg hb', if_neg hb']

/-- Witness for C3 at a concrete grid, object and anchor. -/
theorem add_remove_roundtrip_witness :
    1 ≤ obj1.size ∧ (Map.mkEmpty 3).check_placement obj1 (some ⟨0, 0⟩) = true ∧
    (((Map.mkEmpty 3).addD obj1 (some ⟨0, 0⟩)).removeD ⟨0, 0⟩).get ⟨0, 0⟩ =
      (Map.mkEmpty 3).get ⟨0, 0⟩ :=
  ⟨by decide, by decide,
   (add_remove_roundtrip (Map.mkEmpty 3) obj1 ⟨0, 0⟩ (by decide) (by decide)).2.2 ⟨0, 0⟩⟩

/-- Inversion of a successful remove: the argument cell held the returned
object, the bounds test passed, and the result clears the block of the
returned object anchored at the argument. -/
theorem remove_ok_inv (m : Map) (c : Coordinate) (o : GameObject) (m' : Map)
    (h : m.remove c = Except.ok (o, m')) :
    m.get c = some o ∧ m' = clearBlock m c o.size ∧
      (Coordinate.le ⟨0, 0⟩ c && Coordinate.le c ⟨m.size, m.size⟩) = true := by
  unfold Map.remove at h
  by_cases hb : (Coordinate.le ⟨0, 0⟩ c && Coordinate.le c ⟨m.size, m.size⟩) = true
  · rw [if_pos hb] at h
    cases hg : m.get c with
    | none => rw [hg] at h; cases h
    | some o2 =>
      rw [hg] at h
      injection h with h2
      rw [Prod.mk.injEq] at h2
      obtain ⟨h3, h4⟩ := h2
      subst h3
      exact ⟨rfl, h4.symm, hb⟩
  · rw [if_neg hb] at h; cases h

/-! Claim C4. -/

/-- C4: a move succeeds only when the destination is adjacent to the stored
anchor of the object and the placement check passes at the destination; and
whenever move raises NotAdjacentError or PlacementError the observed grid at
that moment agrees with the pre-call grid at every coordinate. -/
theorem move_success_and_error_frame (m : Map) (o : GameObject) (n : Coordinate) :
    (exceptOk (m.move o n) = true →
      ∃ a, o.coord = some a ∧ Coordinate.is_adjacent a n = true ∧
        m.check_placement o (some n) = true)
    ∧ ∀ c, (moveErrState m o n).get c = m.get c := by
  constructor
  · intro hok
    unfold Map.move at hok
    cases hcoord : o.coord with
    | none => rw [hcoord] at hok; simp [exceptOk] at hok
    | some a =>
      rw [hcoord] at hok
      cases hadj : Coordinate.is_adjacent a n
      · simp [hadj, exceptOk] at hok
      · cases hcp : m.check_placement o (some n)
        · simp [hadj, hcp, exceptOk] at hok
        · exact ⟨a, rfl, hadj, rfl⟩
  · intro c
    unfold moveErrState Map.move
    cases hcoord : o.coord with
    | none => rfl
    | some a =>
      cases hadj : Coordinate.is_adjacent a n
      · simp [hadj]
      · cases hcp : m.check_placement o (some n)
        · simp [hadj, hcp]
        · cases hrem : m.remove a with
          | error e =>
            cases e <;> simp [hadj, hcp, hrem]
          | ok pm =>
            obtain ⟨o2, m1⟩ := pm
            obtain ⟨hga, hm1, hbnd⟩ := remove_ok_inv m a o2 m1 hrem
            have hc1 : m1.check_placement o (some n) = true := by
              refine check_placement_mono m m1 o (some n) ?_ ?_ hcp
              · rw [hm1]; rfl
              · intro c'
                rw [hm1, clearBlock_get]
                by_cases hb2 : inBlockN a o2.size c' <;> simp [hb2]
            have hadd : m1.add o (some n) = Except.ok (setBlock m1 o n) := by
              simp [Map.add, hc1]
            simp [hadj, hcp, hrem, hadd]

/-- Witness for C4: a successful concrete move yields adjacency and a
passing placement check. -/
theorem move_success_and_error_frame_witness :
    ∃ a, obj1.coord = some a ∧ Coordinate.is_adjacent a ⟨1, 1⟩ = true ∧
      ((Map.mkEmpty 3).addD obj1 (some ⟨0, 0⟩)).check_placement obj1 (some ⟨1, 1⟩) = true :=
  (move_success_and_error_frame ((Map.mkEmpty 3).addD obj1 (some ⟨0, 0⟩)) obj1 ⟨1, 1⟩).1
    (by decide)

/-! Claim C10. -/

/-- C10: an object of footprint at least 2 whose footprint block is placed at
its stored anchor can never be moved: every destination is either not
adjacent, or its block overlaps the occupied current footprint, so move
always raises. -/
theorem move_large_footprint_fails (m : Map) (o : GameObject) (n a : Coordinate)
    (h1 : o.coord = some a) (h2 : 2 ≤ o.size)
    (h3 : ∀ x : Nat, x < o.size → ∀ y : Nat, y < o.size →
      m.get ⟨a.x + (x : Int), a.y + (y : Int)⟩ = some o) :
    exceptOk (m.move o n) = false := by
  unfold Map.move
  rw [h1]
  cases hadj : Coordinate.is_adjacent a n
  · simp [hadj, exceptOk]
  · have hcheck : m.check_placement o (some n) = false := by
      rw [Bool.eq_false_iff]
      intro hc
      obtain (h0 | ⟨c, hc2, hb, hcell⟩) := (check_placement_iff m o (some n)).1 hc
      · omega
      · injection hc2 with hc3
        subst hc3
        obtain ⟨hx1, hy1, hne⟩ := (is_adjacent_iff a n).1 hadj
        have hz3 := h3 ((max a.x n.x) - a.x).toNat (by omega) ((max a.y n.y) - a.y).toNat (by omega)
        have hzc := hcell ((max a.x n.x) - n.x).toNat (by omega) ((max a.y n.y) - n.y).toNat (by omega)
        have e1 : (⟨a.x + (((max a.x n.x - a.x).toNat : Nat) : Int),
                   a.y + (((max a.y n.y - a.y).toNat : Nat) : Int)⟩ : Coordinate) =
                  ⟨max a.x n.x, max a.y n.y⟩ := by
          rw [Coordinate.mk.injEq]
          constructor <;> omega
        have e2 : (⟨n.x + (((max a.x n.x - n.x).toNat : Nat) : Int),
                   n.y + (((max a.y n.y - n.y).toNat : Nat) : Int)⟩ : Coordinate) =
                  ⟨max a.x n.x, max a.y n.y⟩ := by
          rw [Coordinate.mk.injEq]
          constructor <;> omega
        rw [e1] at hz3
        rw [e2] at hzc
        rw [hz3] at hzc
        cases hzc
    simp [hadj, hcheck, exceptOk]

/-- Witness for C10: a 2-by-2 object placed at the origin of a 4-by-4 grid
cannot move to the diagonal neighbor. -/
theorem move_large_footprint_fails_witness :
    exceptOk (((Map.mkEmpty 4).addD obj2 (some ⟨0, 0⟩)).move obj2 ⟨1, 1⟩) = false :=
  move_large_footprint_fails ((Map.mkEmpty 4).addD obj2 (some ⟨0, 0⟩)) obj2 ⟨1, 1⟩ ⟨0, 0⟩
    (by decide) (by decide) (by decide)

/-! Claim C7. -/

/-- The translation of region extraction is injective. -/
theorem gft_target_inj (f c c' : Coordinate)
    (h : (⟨c.x - f.x, c.y - f.y⟩ : Coordinate) = ⟨c'.x - f.x, c'.y - f.y⟩) : c = c' := by
  rw [Coordinate.mk.injEq] at h
  cases c; cases c'
  rw [Coordinate.mk.injEq]
  dsimp only at h ⊢
  omega

/-- The extraction fold leaves a target cell untouched when no listed source
cell translates onto it. -/
theorem gft_foldl_frame (m : Map) (f : Coordinate) (l : List Coordinate)
    (acc : Coordinate → Option GameObject) (z : Coordinate)
    (h : ∀ c ∈ l, (⟨c.x - f.x, c.y - f.y⟩ : Coordinate) ≠ z) :
    (l.foldl
      (fun acc c =>
        match m.get c with
        | none => acc
        | some o => writeCell acc ⟨c.x - f.x, c.y - f.y⟩ (some o)) acc) z = acc z := by
  induction l generalizing acc with
  | nil => rfl
  | cons a l ih =>
    rw [List.foldl_cons]
    rw [ih _ (fun c hc => h c (List.mem_cons_of_mem a hc))]
    cases hg : m.get a
    · rfl
    · dsimp only
      rw [writeCell, if_neg]
      intro hz
      exact h a (List.mem_cons_self a l) (hz ▸ rfl)

/-- The extraction fold writes every occupied listed source cell to its
translated target. -/
theorem gft_foldl_hit (m : Map) (f : Coordinate) (l : List Coordinate)
    (acc : Coordinate → Option GameObject) (c0 : Coordinate) (o : GameObject)
    (ho : m.get c0 = some o) (hmem : c0 ∈ l) :
    (l.foldl
      (fun acc c =>
        match m.get c with
        | none => acc
        | some o => writeCell acc ⟨c.x - f.x, c.y - f.y⟩ (some o)) acc)
      ⟨c0.x - f.x, c0.y - f.y⟩ = some o := by
  induction l generalizing acc with
  | nil => cases hmem
  | cons a l ih =>
    rw [List.foldl_cons]
    by_cases hm : c0 ∈ l
    · exact ih _ hm
    · have ha : c0 = a := by
        rcases List.mem_cons.1 hmem with h | h
        · exact h
        · exact absurd h hm
      subst ha
      rw [gft_foldl_frame]
      · rw [ho]
        dsimp only
        rw [writeCell, if_pos rfl]
      · intro c hc hz
        exact hm ((gft_target_inj f c c0 hz) ▸ hc)

/-- C7: for componentwise ordered corners, get_from_to returns a grid whose
size is the maximum of the two axis spans, and every occupied cell of the
closed rectangle appears at its translated coordinate, the from corner
mapping to the origin. -/
theorem get_from_to_spec (m : Map) (f t : Coordinate)
    (_hx : f.x ≤ t.x) (_hy : f.y ≤ t.y) :
    (m.get_from_to f t).size = max (t.x - f.x) (t.y - f.y) ∧
    ∀ c o, f.x ≤ c.x → c.x ≤ t.x → f.y ≤ c.y → c.y ≤ t.y →
      m.get c = some o →
      (m.get_from_to f t).get ⟨c.x - f.x, c.y - f.y⟩ = some o := by
  refine ⟨rfl, ?_⟩
  intro c o h1 h2 h3 h4 ho
  unfold Map.get_from_to Map.get
  dsimp only
  exact gft_foldl_hit m f (rectCoords f t) _ c o ho
    ((mem_rectCoords f t c).2 ⟨h1, h2, h3, h4⟩)

/-- Witness for C7 at a concrete grid and rectangle. -/
theorem get_from_to_spec_witness :
    (((Map.mkEmpty 5).addD obj1 (some ⟨2, 2⟩)).get_from_to ⟨1, 1⟩ ⟨2, 3⟩).size =
      max ((2 : Int) - 1) ((3 : Int) - 1) ∧
    (((Map.mkEmpty 5).addD obj1 (some ⟨2, 2⟩)).get_from_to ⟨1, 1⟩ ⟨2, 3⟩).get
      ⟨(2 : Int) - 1, (2 : Int) - 1⟩ = some obj1 := by
  have h := get_from_to_spec ((Map.mkEmpty 5).addD obj1 (some ⟨2, 2⟩)) ⟨1, 1⟩ ⟨2, 3⟩
    (by decide) (by decide)
  exact ⟨h.1, h.2 ⟨2, 2⟩ obj1 (by decide) (by decide) (by decide) (by decide) (by decide)⟩

/-! Claim C8. -/

/-- One operation through a reference never touches tables at other heap
indices. -/
theorem applyOp_frame (h : Heap) (r : MapRef) (op : MOp) (j : Nat)
    (hj : j ≠ r.ref) : (h.applyOp r op).store j = h.store j := by
  cases op with
  | addO o co =>
    cases hadd : (h.asMap r).add o co <;>
      simp [Heap.applyOp, hadd, Heap.setStore, hj]
  | removeO c =>
    cases hrem : (h.asMap r).remove c with
    | ok pm => obtain ⟨o2, m'⟩ := pm; simp [Heap.applyOp, hrem, Heap.setStore, hj]
    | error e => simp [Heap.applyOp, hrem]

/-- A sequence of operations through a reference never touches tables at
other heap indices. -/
theorem applyOps_frame (ops : List MOp) (h : Heap) (r : MapRef) (j : Nat)
    (hj : j ≠ r.ref) : (h.applyOps r ops).store j = h.store j := by
  induction ops generalizing h with
  | nil => rfl
  | cons op ops ih =>
    rw [Heap.applyOps, ih _]
    exact applyOp_frame h r op j hj

/-- C8: capture returns a same-size grid agreeing with the original at every
coordinate, and add/remove sequences on the copy never change reads of the
original, nor do add/remove sequences on the original change reads of the
copy. -/
theorem capture_spec (h : Heap) (r : MapRef) (hv : r.ref < h.next) :
    (h.capture r).2.size = r.size
    ∧ (∀ c, (h.capture r).1.getH (h.capture r).2 c = h.getH r c)
    ∧ (∀ ops c, ((h.capture r).1.applyOps (h.capture r).2 ops).getH r c = h.getH r c)
    ∧ (∀ ops c, ((h.capture r).1.applyOps r ops).getH (h.capture r).2 c = h.getH r c) := by
  refine ⟨rfl, ?_, ?_, ?_⟩
  · intro c
    unfold Heap.capture Heap.getH
    dsimp only
    rw [if_pos rfl]
  · intro ops c
    unfold Heap.getH
    rw [applyOps_frame ops _ _ r.ref (by show r.ref ≠ h.next; omega)]
    unfold Heap.capture
    dsimp only
    rw [if_neg (by omega)]
  · intro ops c
    unfold Heap.getH
    rw [applyOps_frame ops _ r ((h.capture r).2.ref) (by show h.next ≠ r.ref; omega)]
    unfold Heap.capture
    dsimp only
    rw [if_pos rfl]

/-- Witness for C8: one add on a concrete captured copy leaves the original
read unchanged. -/
theorem capture_spec_witness :
    ref0.ref < heap0.next ∧
    ((heap0.capture ref0).1.applyOps (heap0.capture ref0).2
        [MOp.addO obj1 (some ⟨1, 1⟩)]).getH ref0 ⟨1, 1⟩ =
      heap0.getH ref0 ⟨1, 1⟩ :=
  ⟨by decide,
   (capture_spec heap0 ref0 (by decide)).2.2.1 [MOp.addO obj1 (some ⟨1, 1⟩)] ⟨1, 1⟩⟩

/-! Claim C6. -/

/-- Inversion of a successful add: the placement check passed and the result
either is unchanged (undefined coordinate with empty footprint) or claims the
block. -/
theorem add_ok_inv (m : Map) (o : GameObject) (co : Option Coordinate) (m' : Map)
    (h : m.add o co = Except.ok m') :
    m.check_placement o co = true ∧
      ((co = none ∧ m' = m) ∨ ∃ c, co = some c ∧ m' = setBlock m o c) := by
  unfold Map.add at h
  by_cases hc : m.check_placement o co = true
  · rw [if_pos hc] at h
    rcases co with _ | c
    · injection h with h2
      exact ⟨hc, Or.inl ⟨rfl, h2.symm⟩⟩
    · injection h with h2
      exact ⟨hc, Or.inr ⟨c, rfl, h2.symm⟩⟩
  · rw [if_neg hc] at h; cases h

/-- Block membership in parametrized form. -/
theorem inBlockN_param (a : Coordinate) (k : Nat) (c : Coordinate)
    (h : inBlockN a k c) :
    ∃ x : Nat, x < k ∧ ∃ y : Nat, y < k ∧
      c = ⟨a.x + (x : Int), a.y + (y : Int)⟩ := by
  unfold inBlockN at h
  refine ⟨(c.x - a.x).toNat, by omega, (c.y - a.y).toNat, by omega, ?_⟩
  cases c
  rw [Coordinate.mk.injEq]
  dsimp only at h ⊢
  constructor <;> omega

/-- The freshly written block is fully referenced. -/
theorem fullBlock_setBlock_self (m : Map) (o : GameObject) (c : Coordinate) :
    fullBlock (setBlock m o c) o c := by
  intro x hx y hy
  rw [setBlock_get, if_pos]
  unfold inBlockN
  dsimp only
  omega

/-- A successful add preserves the no-partial-footprint invariant. -/
theorem add_preserves_noPartial (m : Map) (o : GameObject) (co : Option Coordinate)
    (m' : Map) (h : m.add o co = Except.ok m') (hinv : NoPartial m) : NoPartial m' := by
  obtain ⟨hc, hcase⟩ := add_ok_inv m o co m' h
  rcases hcase with ⟨-, rfl⟩ | ⟨c, rfl, rfl⟩
  · exact hinv
  · obtain (h0 | ⟨c2, hc2, hb, hcell⟩) := (check_placement_iff m o (some c)).1 hc
    · intro c' o' hg
      rw [setBlock_get, if_neg (by unfold inBlockN; omega)] at hg
      obtain ⟨dx, hdx, dy, hdy, hfb⟩ := hinv c' o' hg
      refine ⟨dx, hdx, dy, hdy, ?_⟩
      intro x hx y hy
      rw [setBlock_get, if_neg (by unfold inBlockN; omega)]
      exact hfb x hx y hy
    · injection hc2 with hc3
      subst hc3
      intro c' o' hg
      rw [setBlock_get] at hg
      by_cases hbm : inBlockN c o.size c'
      · rw [if_pos hbm] at hg
        injection hg with hg2
        subst hg2
        obtain ⟨x1, hx1, y1, hy1, rfl⟩ := inBlockN_param c o.size c' hbm
        refine ⟨x1, hx1, y1, hy1, ?_⟩
        have ha : (⟨(⟨c.x + (x1 : Int), c.y + (y1 : Int)⟩ : Coordinate).x - (x1 : Int),
                   (⟨c.x + (x1 : Int), c.y + (y1 : Int)⟩ : Coordinate).y - (y1 : Int)⟩ : Coordinate) = c := by
          cases c
          rw [Coordinate.mk.injEq]
          dsimp only
          constructor <;> omega
        rw [ha]
        exact fullBlock_setBlock_self m o c
      · rw [if_neg hbm] at hg
        obtain ⟨dx, hdx, dy, hdy, hfb⟩ := hinv c' o' hg
        refine ⟨dx, hdx, dy, hdy, ?_⟩
        intro x hx y hy
        rw [setBlock_get]
        by_cases hbc : inBlockN c o.size ⟨c'.x - (dx : Int) + (x : Int), c'.y - (dy : Int) + (y : Int)⟩
        · exfalso
          obtain ⟨x2, hx2, y2, hy2, he⟩ := inBlockN_param c o.size _ hbc
          have h1 := hfb x hx y hy
          rw [he] at h1
          rw [hcell x2 hx2 y2 hy2] at h1
          cases h1
        · rw [if_neg hbc]
          exact hfb x hx y hy

/-- A successful remove at an anchor preserves the no-partial-footprint
invariant. -/
theorem remove_preserves_noPartial (m : Map) (c : Coordinate) (o : GameObject)
    (m' : Map) (h : m.remove c = Except.ok (o, m')) (hanchor : anchorCall m c)
    (hinv : NoPartial m) : NoPartial m' := by
  obtain ⟨hg, hm', hb⟩ := remove_ok_inv m c o m' h
  subst hm'
  have hiff := hanchor o hg
  intro c2 o2 hg2
  rw [clearBlock_get] at hg2
  by_cases hbm : inBlockN c o.size c2
  · rw [if_pos hbm] at hg2; cases hg2
  · rw [if_neg hbm] at hg2
    have ho2 : o2 ≠ o := by
      rintro rfl
      exact hbm ((hiff c2).1 hg2)
    obtain ⟨dx, hdx, dy, hdy, hfb⟩ := hinv c2 o2 hg2
    refine ⟨dx, hdx, dy, hdy, ?_⟩
    intro x hx y hy
    rw [clearBlock_get]
    by_cases hbc : inBlockN c o.size ⟨c2.x - (dx : Int) + (x : Int), c2.y - (dy : Int) + (y : Int)⟩
    · exfalso
      have h1 := hfb x hx y hy
      have h2 := (hiff _).2 hbc
      rw [h1] at h2
      injection h2 with h3
      exact ho2 h3
    · rw [if_neg hbc]
      exact hfb x hx y hy

/-- A successful move whose removal phase is an anchor call preserves the
no-partial-footprint invariant. -/
theorem move_preserves_noPartial (m : Map) (o : GameObject) (n : Coordinate)
    (m2 : Map) (h : m.move o n = Except.ok m2)
    (hanchor : ∀ a, o.coord = some a → anchorCall m a)
    (hinv : NoPartial m) : NoPartial m2 := by
  unfold Map.move at h
  cases hcoord : o.coord with
  | none => rw [hcoord] at h; cases h
  | some a =>
    rw [hcoord] at h
    dsimp only at h
    by_cases hadj : Coordinate.is_adjacent a n = true
    case neg => rw [if_neg hadj] at h; cases h
    rw [if_pos hadj] at h
    by_cases hcp : m.check_placement o (some n) = true
    case neg => rw [if_neg hcp] at h; cases h
    rw [if_pos hcp] at h
    cases hrem : m.remove a with
    | error e => rw [hrem] at h; cases h
    | ok pm =>
      obtain ⟨o2, m1⟩ := pm
      rw [hrem] at h
      dsimp only at h
      cases hadd : m1.add o (some n) with
      | error e => rw [hadd] at h; cases h
      | ok m3 =>
        rw [hadd] at h
        injection h with h2
        subst h2
        exact add_preserves_noPartial m1 o (some n) m3 hadd
          (remove_preserves_noPartial m a o2 m1 hrem (hanchor a hcoord) hinv)

/-- C6 counterexample: the claim as frozen fails.  From the empty 3-by-3
grid, a successful add of a 2-by-2 object at the origin followed by a
successful remove at the non-anchor interior cell (1,1) is a sequence of
successful operations, yet the resulting grid references the object at (0,0)
with no fully referenced footprint block around it. -/
theorem noPartial_counterexample :
    Relation.ReflTransGen PlainStep (Map.mkEmpty 3)
      (((Map.mkEmpty 3).addD obj2 (some ⟨0, 0⟩)).removeD ⟨1, 1⟩) ∧
    ¬ NoPartial (((Map.mkEmpty 3).addD obj2 (some ⟨0, 0⟩)).removeD ⟨1, 1⟩) := by
  constructor
  · have s1 : PlainStep (Map.mkEmpty 3) ((Map.mkEmpty 3).addD obj2 (some ⟨0, 0⟩)) :=
      PlainStep.add (Map.mkEmpty 3) obj2 (some ⟨0, 0⟩)
        ((Map.mkEmpty 3).addD obj2 (some ⟨0, 0⟩)) rfl
    have s2 : PlainStep ((Map.mkEmpty 3).addD obj2 (some ⟨0, 0⟩))
        (((Map.mkEmpty 3).addD obj2 (some ⟨0, 0⟩)).removeD ⟨1, 1⟩) :=
      PlainStep.remove ((Map.mkEmpty 3).addD obj2 (some ⟨0, 0⟩)) ⟨1, 1⟩ obj2
        (((Map.mkEmpty 3).addD obj2 (some ⟨0, 0⟩)).removeD ⟨1, 1⟩) rfl
    exact Relation.ReflTransGen.tail (Relation.ReflTransGen.single s1) s2
  · intro hnp
    have h1 : (((Map.mkEmpty 3).addD obj2 (some ⟨0, 0⟩)).removeD ⟨1, 1⟩).get ⟨0, 0⟩ =
        some obj2 := by decide
    obtain ⟨dx, hdx, dy, hdy, hfb⟩ := hnp ⟨0, 0⟩ obj2 h1
    have hall : ∀ dx : Nat, dx < 2 → ∀ dy : Nat, dy < 2 →
        ¬ fullBlock (((Map.mkEmpty 3).addD obj2 (some ⟨0, 0⟩)).removeD ⟨1, 1⟩) obj2
          ⟨0 - (dx : Int), 0 - (dy : Int)⟩ := by decide
    exact hall dx hdx dy hdy hfb

/-- C6 amended: in every grid state reachable from the empty grid by
successful add, remove and move operations in which each remove, including
the removal phase of each move, is invoked at the anchor of its footprint
block (the cells referencing the object found at the argument are exactly
the block anchored there), every placed object is fully present: each
referencing coordinate lies in a fully referenced footprint block. -/
theorem reachable_noPartial (s : Int) (g : Map)
    (h : Relation.ReflTransGen GoodStep (Map.mkEmpty s) g) : NoPartial g := by
  induction h with
  | refl =>
    intro c o hg
    simp [Map.mkEmpty, Map.get] at hg
  | tail hab hbc ih =>
    cases hbc with
    | add o co m' hadd => exact add_preserves_noPartial _ _ _ _ hadd ih
    | remove c o m' hrem hanchor =>
      exact remove_preserves_noPartial _ _ _ _ hrem hanchor ih
    | move o n m' hmove hanchor =>
      exact move_preserves_noPartial _ _ _ _ hmove hanchor ih

/-- Witness for the amended C6: the state after one concrete successful add
from the empty grid satisfies the invariant. -/
theorem reachable_noPartial_witness :
    NoPartial ((Map.mkEmpty 3).addD obj1 (some ⟨0, 0⟩)) :=
  reachable_noPartial 3 ((Map.mkEmpty 3).addD obj1 (some ⟨0, 0⟩))
    (Relation.ReflTransGen.single
      (GoodStep.add (Map.mkEmpty 3) obj1 (some ⟨0, 0⟩)
        ((Map.mkEmpty 3).addD obj1 (some ⟨0, 0⟩)) rfl))

/-! Claim C9: lemmas about the breadth-first search levels. -/

/-- The start cell is never its own obstacle. -/
theorem blockedB_self (m : Map) (s : Coordinate) : blockedB m s s = false := by
  unfold blockedB
  cases h : m.get s <;> simp

/-- On a grid with no occupied cells nothing is blocked. -/
theorem blockedB_empty (m : Map) (s c : Coordinate)
    (hempty : ∀ c2, m.get c2 = none) : blockedB m s c = false := by
  unfold blockedB
  rw [hempty c]

/-- Membership in the next search level. -/
theorem mem_reach_succ (m : Map) (s : Coordinate) (i : Nat) (c : Coordinate) :
    c ∈ reach m s (i + 1) ↔
      c ∈ reach m s i ∨
        (inBoundsCell m.size c = true ∧ ¬ c ∈ reach m s i ∧ blockedB m s c = false ∧
          ∃ n ∈ reach m s i, Coordinate.is_adjacent n c = true) := by
  conv_lhs => rw [reach]
  simp only [List.mem_append, List.mem_filter, Bool.and_eq_true, Bool.not_eq_true',
    decide_eq_true_eq, List.any_eq_true, mem_allCoordsList]
  tauto

/-- Every reached cell is the start or an in-bounds unblocked cell. -/
theorem reach_members (m : Map) (s : Coordinate) :
    ∀ i c, c ∈ reach m s i →
      c = s ∨ (inBoundsCell m.size c = true ∧ blockedB m s c = false) := by
  intro i
  induction i with
  | zero =>
    intro c h
    simp only [reach, List.mem_singleton] at h
    exact Or.inl h
  | succ i ih =>
    intro c h
    rcases (mem_reach_succ m s i c).1 h with h2 | ⟨hin, -, hbl, -⟩
    · exact ih c h2
    · exact Or.inr ⟨hin, hbl⟩

/-- Chebyshev distance moves by at most one along an adjacency step. -/
theorem chebDist_triangle_adj (s n c : Coordinate)
    (h : Coordinate.is_adjacent n c = true) :
    chebDist s c ≤ chebDist s n + 1 := by
  obtain ⟨h1, h2, -⟩ := (is_adjacent_iff n c).1 h
  have ha : (s.x - n.x).natAbs ≤ chebDist s n := le_max_left _ _
  have hb : (s.y - n.y).natAbs ≤ chebDist s n := le_max_right _ _
  rw [chebDist_le_iff]
  constructor <;> omega

/-- Properties of a unit step toward a target within shared bounds. -/
theorem stepToward_spec (a s lo hi : Int) (ha1 : lo ≤ a) (ha2 : a ≤ hi)
    (hs1 : lo ≤ s) (hs2 : s ≤ hi) :
    lo ≤ stepToward a s ∧ stepToward a s ≤ hi ∧
    (stepToward a s - a).natAbs ≤ 1 ∧
    (s - stepToward a s).natAbs = (s - a).natAbs - 1 ∧
    (stepToward a s = a → s = a) := by
  unfold stepToward
  split_ifs with h1 h2 <;>
    exact ⟨by omega, by omega, by omega, by omega, by omega⟩

/-- On an empty grid the search levels are exactly the in-bounds Chebyshev
balls around the start. -/
theorem reach_empty_iff (m : Map) (s : Coordinate)
    (hempty : ∀ c, m.get c = none) (hs : inBoundsCell m.size s = true) :
    ∀ i c, c ∈ reach m s i ↔ inBoundsCell m.size c = true ∧ chebDist s c ≤ i := by
  intro i
  induction i with
  | zero =>
    intro c
    simp only [reach, List.mem_singleton]
    constructor
    · rintro rfl
      exact ⟨hs, by simp [chebDist]⟩
    · rintro ⟨hin, hc⟩
      exact ((chebDist_eq_zero_iff s c).1 (Nat.le_zero.1 hc)).symm
  | succ i ih =>
    intro c
    rw [mem_reach_succ]
    constructor
    · rintro (h | ⟨hin, hnot, hbl, n, hn, hadj⟩)
      · obtain ⟨h1, h2⟩ := (ih c).1 h
        exact ⟨h1, by omega⟩
      · refine ⟨hin, ?_⟩
        obtain ⟨h1, h2⟩ := (ih n).1 hn
        have := chebDist_triangle_adj s n c hadj
        omega
    · rintro ⟨hin, hc⟩
      by_cases hle : chebDist s c ≤ i
      · exact Or.inl ((ih c).2 ⟨hin, hle⟩)
      · right
        have hc1 : chebDist s c = i + 1 := by omega
        have hcx : (s.x - c.x).natAbs ≤ i + 1 := by
          have := (chebDist_le_iff s c (i + 1)).1 (by omega)
          exact this.1
        have hcy : (s.y - c.y).natAbs ≤ i + 1 := by
          have := (chebDist_le_iff s c (i + 1)).1 (by omega)
          exact this.2
        have hin2 := hin
        have hs2 := hs
        simp only [inBoundsCell, decide_eq_true_eq] at hin2 hs2
        obtain ⟨bx1, bx2, bx3, bx4, bx5⟩ :=
          stepToward_spec c.x s.x 0 (m.size - 1) hin2.1 hin2.2.1 hs2.1 hs2.2.1
        obtain ⟨by1, by2, by3, by4, by5⟩ :=
          stepToward_spec c.y s.y 0 (m.size - 1) hin2.2.2.1 hin2.2.2.2 hs2.2.2.1 hs2.2.2.2
        refine ⟨hin, fun hmem => hle ((ih c).1 hmem).2, blockedB_empty m s c hempty,
          ⟨stepToward c.x s.x, stepToward c.y s.y⟩, ?_, ?_⟩
        · refine (ih _).2 ⟨?_, ?_⟩
          · simp only [inBoundsCell, decide_eq_true_eq]
            exact ⟨bx1, bx2, by1, by2⟩
          · rw [chebDist_le_iff]
            dsimp only
            omega
        · rw [is_adjacent_iff]
          dsimp only
          refine ⟨by omega, by omega, ?_⟩
          intro heq
          have hx := congrArg Coordinate.x heq
          have hy := congrArg Coordinate.y heq
          dsimp only at hx hy
          have hsx := bx5 hx
          have hsy := by5 hy
          have : s = c := by
            cases s; cases c
            rw [Coordinate.mk.injEq]
            dsimp only at hsx hsy ⊢
            omega
          rw [← this] at hc1
          rw [(chebDist_eq_zero_iff s s).2 rfl] at hc1
          cases hc1

/-- When the end is never reached, the level scan reports none. -/
theorem leastD_none_of (m : Map) (s e : Coordinate)
    (h : ∀ i, e ∉ reach m s i) : ∀ fuel i, leastD m s e fuel i = none := by
  intro fuel
  induction fuel with
  | zero => intro i; rfl
  | succ fuel ih =>
    intro i
    rw [leastD, if_neg (h i)]
    exact ih (i + 1)

/-- When reachability is exactly the Chebyshev ball condition, the level
scan returns the Chebyshev distance. -/
theorem leastD_finds (m : Map) (s e : Coordinate)
    (hchar : ∀ i, e ∈ reach m s i ↔ chebDist s e ≤ i) :
    ∀ fuel i, i ≤ chebDist s e → chebDist s e < i + fuel →
      leastD m s e fuel i = some (chebDist s e) := by
  intro fuel
  induction fuel with
  | zero => intro i h1 h2; omega
  | succ fuel ih =>
    intro i h1 h2
    by_cases hmem : e ∈ reach m s i
    · have h3 := (hchar i).1 hmem
      have hieq : i = chebDist s e := by omega
      rw [leastD, if_pos hmem, hieq]
    · have hlt : i < chebDist s e := by
        by_contra hx
        exact hmem ((hchar i).2 (by omega))
      rw [leastD, if_neg hmem]
      exact ih (i + 1) (by omega) (by omega)

/-- A list containing an element satisfying the predicate has a find? hit. -/
theorem find_some_of_mem {α : Type} (l : List α) (p : α → Bool) (x : α)
    (hx : x ∈ l) (hp : p x = true) : ∃ y, l.find? p = some y := by
  induction l with
  | nil => cases hx
  | cons a l ih =>
    cases ha : p a
    · rcases List.mem_cons.1 hx with rfl | h2
      · rw [hp] at ha; cases ha
      · obtain ⟨y, hy⟩ := ih h2
        exact ⟨y, by rw [List.find?_cons, ha, hy]⟩
    · exact ⟨a, by rw [List.find?_cons, ha]⟩

/-- The unit step from a cell toward the start stays in bounds, drops the
Chebyshev distance below the level, and is adjacent to the cell. -/
theorem step_neighbor_spec (m : Map) (s c : Coordinate)
    (hs : inBoundsCell m.size s = true) (hin : inBoundsCell m.size c = true)
    (i : Nat) (hc : chebDist s c = i + 1) :
    inBoundsCell m.size ⟨stepToward c.x s.x, stepToward c.y s.y⟩ = true ∧
    chebDist s ⟨stepToward c.x s.x, stepToward c.y s.y⟩ ≤ i ∧
    Coordinate.is_adjacent ⟨stepToward c.x s.x, stepToward c.y s.y⟩ c = true := by
  have hcx : (s.x - c.x).natAbs ≤ i + 1 := ((chebDist_le_iff s c (i + 1)).1 (by omega)).1
  have hcy : (s.y - c.y).natAbs ≤ i + 1 := ((chebDist_le_iff s c (i + 1)).1 (by omega)).2
  have hin2 := hin
  have hs2 := hs
  simp only [inBoundsCell, decide_eq_true_eq] at hin2 hs2
  obtain ⟨bx1, bx2, bx3, bx4, bx5⟩ :=
    stepToward_spec c.x s.x 0 (m.size - 1) hin2.1 hin2.2.1 hs2.1 hs2.2.1
  obtain ⟨by1, by2, by3, by4, by5⟩ :=
    stepToward_spec c.y s.y 0 (m.size - 1) hin2.2.2.1 hin2.2.2.2 hs2.2.2.1 hs2.2.2.2
  refine ⟨?_, ?_, ?_⟩
  · simp only [inBoundsCell, decide_eq_true_eq]
    exact ⟨bx1, bx2, by1, by2⟩
  · rw [chebDist_le_iff]
    dsimp only
    omega
  · rw [is_adjacent_iff]
    dsimp only
    refine ⟨by omega, by omega, ?_⟩
    intro heq
    have hx := congrArg Coordinate.x heq
    have hy := congrArg Coordinate.y heq
    dsimp only at hx hy
    have hsx := bx5 hx
    have hsy := by5 hy
    have hseq : s = c := by
      cases s; cases c
      rw [Coordinate.mk.injEq]
      dsimp only at hsx hsy ⊢
      omega
    rw [← hseq, (chebDist_eq_zero_iff s s).2 rfl] at hc
    cases hc

/-- On an empty grid the backward extraction from a cell at distance i is a
sequence of i+1 coordinates from the start to that cell. -/
theorem back_spec (m : Map) (s : Coordinate)
    (hempty : ∀ c, m.get c = none) (hs : inBoundsCell m.size s = true) :
    ∀ i c, inBoundsCell m.size c = true → chebDist s c = i →
      (back m s i c).length = i + 1 ∧ (back m s i c).head? = some s ∧
      (back m s i c).getLast? = some c := by
  intro i
  induction i with
  | zero =>
    intro c hin hc
    have hsc := (chebDist_eq_zero_iff s c).1 hc
    subst hsc
    exact ⟨rfl, rfl, rfl⟩
  | succ i ih =>
    intro c hin hc
    obtain ⟨hn0in, hn0le, hn0adj⟩ := step_neighbor_spec m s c hs hin i hc
    have hn0mem : (⟨stepToward c.x s.x, stepToward c.y s.y⟩ : Coordinate) ∈ reach m s i :=
      (reach_empty_iff m s hempty hs i _).2 ⟨hn0in, hn0le⟩
    obtain ⟨n, hfind⟩ := find_some_of_mem (reach m s i)
      (fun n => n.is_adjacent c) _ hn0mem hn0adj
    have hnmem := List.mem_of_find?_eq_some hfind
    have hnadj : Coordinate.is_adjacent n c = true := by
      have h0 := List.find?_some hfind
      simpa using h0
    obtain ⟨hnin, hnle⟩ := (reach_empty_iff m s hempty hs i n).1 hnmem
    have hnd : chebDist s n = i := by
      have ht := chebDist_triangle_adj s n c hnadj
      omega
    obtain ⟨ihl, ihh, ihlast⟩ := ih n hnin hnd
    have hbeq : back m s (i + 1) c = back m s i n ++ [c] := by
      rw [back, hfind]
    rw [hbeq]
    refine ⟨by simp [ihl], ?_, ?_⟩
    · cases hbl : back m s i n with
      | nil => rw [hbl] at ihl; simp at ihl
      | cons a tl =>
        rw [hbl, List.head?_cons] at ihh
        rw [List.cons_append, List.head?_cons]
        exact ihh
    · rw [List.getLast?_concat]

/-- C9: path_finding, modelled from the spec as the breadth-first shortest
path search (the source body is an unimplemented stub).  On a grid with no
occupied cells and in-bounds endpoints it returns a coordinate sequence from
S to E inclusive of length chebDist S E + 1; and whenever S differs from E
and every in-bounds neighbor of E is occupied by an object other than the
one at S, it returns the not-found result. -/
theorem path_finding_spec (m : Map) (S E : Coordinate) :
    ((∀ c, m.get c = none) → inBoundsCell m.size S = true →
      inBoundsCell m.size E = true →
      m.path_finding S E = some (back m S (chebDist S E) E) ∧
      (back m S (chebDist S E) E).length = chebDist S E + 1 ∧
      (back m S (chebDist S E) E).head? = some S ∧
      (back m S (chebDist S E) E).getLast? = some E)
    ∧ (S ≠ E →
        (∀ n, inBoundsCell m.size n = true → Coordinate.is_adjacent n E = true →
          blockedB m S n = true) →
        m.path_finding S E = none) := by
  constructor
  · intro hempty hS hE
    have hchar : ∀ i, E ∈ reach m S i ↔ chebDist S E ≤ i := by
      intro i
      rw [reach_empty_iff m S hempty hS i E]
      exact ⟨fun h => h.2, fun h => ⟨hE, h⟩⟩
    have hdbound : chebDist S E ≤ (m.size * m.size).toNat := by
      have hS2 := hS
      have hE2 := hE
      simp only [inBoundsCell, decide_eq_true_eq] at hS2 hE2
      have h1 : m.size ≤ m.size * m.size :=
        le_mul_of_one_le_right (by omega) (by omega)
      unfold chebDist
      apply max_le <;> omega
    have hleast : leastD m S E ((m.size * m.size).toNat + 1) 0 = some (chebDist S E) :=
      leastD_finds m S E hchar _ 0 (by omega) (by omega)
    have hpf : m.path_finding S E = some (back m S (chebDist S E) E) := by
      unfold Map.path_finding
      rw [if_pos ⟨hS, hE⟩, hleast]
    obtain ⟨hl, hh, hlast⟩ := back_spec m S hempty hS (chebDist S E) E hE rfl
    exact ⟨hpf, hl, hh, hlast⟩
  · intro hne hencl
    unfold Map.path_finding
    by_cases hguard : inBoundsCell m.size S = true ∧ inBoundsCell m.size E = true
    · rw [if_pos hguard]
      have hnr : ∀ i, E ∉ reach m S i := by
        intro i
        induction i with
        | zero =>
          intro h
          simp only [reach, List.mem_singleton] at h
          exact hne h.symm
        | succ i ih =>
          intro h
          rcases (mem_reach_succ m S i E).1 h with h2 | ⟨-, -, -, n, hn, hadj⟩
          · exact ih h2
          · rcases reach_members m S i n hn with rfl | ⟨hnin, hnbl⟩
            · have hbl := hencl n hguard.1 hadj
              rw [blockedB_self] at hbl
              cases hbl
            · have hbl := hencl n hnin hadj
              rw [hnbl] at hbl
              cases hbl
      rw [leastD_none_of m S E hnr]
    · rw [if_neg hguard]

/-- Witness for C9: a concrete shortest path on the empty 3-by-3 grid, and a
concrete not-found result when the corner (2,2) is walled off. -/
theorem path_finding_spec_witness :
    (Map.mkEmpty 3).path_finding ⟨0, 0⟩ ⟨2, 1⟩ =
      some (back (Map.mkEmpty 3) ⟨0, 0⟩ (chebDist ⟨0, 0⟩ ⟨2, 1⟩) ⟨2, 1⟩) ∧
    (back (Map.mkEmpty 3) ⟨0, 0⟩ (chebDist ⟨0, 0⟩ ⟨2, 1⟩) ⟨2, 1⟩).length =
      chebDist ⟨0, 0⟩ ⟨2, 1⟩ + 1 ∧
    (back (Map.mkEmpty 3) ⟨0, 0⟩ (chebDist ⟨0, 0⟩ ⟨2, 1⟩) ⟨2, 1⟩).head? =
      some ⟨0, 0⟩ ∧
    (back (Map.mkEmpty 3) ⟨0, 0⟩ (chebDist ⟨0, 0⟩ ⟨2, 1⟩) ⟨2, 1⟩).getLast? =
      some ⟨2, 1⟩ ∧
    mEnc.path_finding ⟨0, 0⟩ ⟨2, 2⟩ = none := by
  have h1 := (path_finding_spec (Map.mkEmpty 3) ⟨0, 0⟩ ⟨2, 1⟩).1
    (fun c => rfl) (by decide) (by decide)
  have henc : ∀ n, inBoundsCell mEnc.size n = true →
      Coordinate.is_adjacent n ⟨2, 2⟩ = true → blockedB mEnc ⟨0, 0⟩ n = true := by
    intro n hin hadj
    obtain ⟨x, y⟩ := n
    simp only [inBoundsCell, decide_eq_true_eq] at hin
    rw [is_adjacent_iff] at hadj
    obtain ⟨ha1, ha2, ha3⟩ := hadj
    dsimp only at ha1 ha2 hin
    rw [show mEnc.size = 3 from rfl] at hin
    have hx : x = 1 ∨ x = 2 := by omega
    have hy : y = 1 ∨ y = 2 := by omega
    rcases hx with rfl | rfl <;> rcases hy with rfl | rfl
    · decide
    · decide
    · decide
    · exact absurd rfl ha3
  have h2 := (path_finding_spec mEnc ⟨0, 0⟩ ⟨2, 2⟩).2 (by decide) henc
  exact ⟨h1.1, h1.2.1, h1.2.2.1, h1.2.2.2, h2⟩
